import Mathlib

/-!
# Verification of the elicitation manager (`src/core/elicitation.py`)

Shallow embedding of the elicitation lifecycle of the multi-tenant-github-mcp
server: the `ElicitationMetadata` record, the process-wide `ElicitationManager`
(elicitation store, session auth cache, TTL sweep) and its transition API
(`update_elicitation_progress`, `complete_elicitation`, `accept_elicitation`,
`decline_elicitation`, `cancel_elicitation`, `get_collected_token`, the
session-auth operations and `cleanup_old_elicitations`).

Modelling conventions:
* Python dicts become function maps `String → Option _`; in-place mutation of a
  metadata object held by the dict becomes a pointwise update of the map.
* `datetime` timestamps become `Nat` (seconds); `timedelta(hours=1)` is `3600`.
* The `asyncio.Future` `completed_promise` is represented by its only observable
  used by the code, the `done()` flag (`promiseDone`); `set_result` flips it
  from `false` to `true`.  The `progress_token` / `notification_sender` hooks
  only drive best-effort I/O notifications (caught-and-logged on failure) and
  carry no state read back by any operation, so they are not modelled.
* `print` logging is I/O only and not modelled; every Python method returns
  `None` and never raises on state inconsistency, so each operation is a total
  Lean function returning the new manager state.
* Python truthiness of an `Optional[str]` argument (`if message:`) is `false`
  exactly for `None` and for the empty string.
-/

/-- The fields of Python's `ElicitationMetadata` object (constructor defaults:
`status = "pending"`, `progress = 0`, fresh unresolved future, `created_at`
the current time, `collected_token = None`, `token_validated = False`). -/
structure ElicitationMetadata where
  status : String
  progress : Nat
  promiseDone : Bool
  created_at : Nat
  session_id : String
  message : String
  collected_token : Option String
  token_validated : Bool
deriving DecidableEq

/-- `ElicitationMetadata.__init__(session_id, message)` at current time `now`. -/
def initMetadata (session_id message : String) (now : Nat) : ElicitationMetadata :=
  { status := "pending", progress := 0, promiseDone := false, created_at := now,
    session_id := session_id, message := message,
    collected_token := none, token_validated := false }

/-- One value of the inner dict of `session_service_auth`
(`{"authenticated": ..., "elicitation_id": ..., "authenticated_at": ...}`). -/
structure ServiceAuth where
  authenticated : Bool
  elicitation_id : String
  authenticated_at : Nat
deriving DecidableEq

/-- The mutable state of Python's `ElicitationManager`: the elicitation store
`elicitations_map` and the session auth cache `session_service_auth`
(a dict of dicts).  The TTL and sweep-interval constants are module-level
constants below. -/
structure ElicitationManager where
  elicitations_map : String → Option ElicitationMetadata
  session_service_auth : String → Option (String → Option ServiceAuth)

/-- `ElicitationManager.__init__`: both maps empty. -/
def initialManager : ElicitationManager :=
  { elicitations_map := fun _ => none, session_service_auth := fun _ => none }

/-- `ELICITATION_TTL_HOURS = 1`, expressed in seconds. -/
def ELICITATION_TTL : Nat := 3600

/-- Python truthiness of an `Optional[str]`: `None` and `""` are falsy. -/
def strTruthy : Option String → Bool
  | none => false
  | some s => !(s = "")

/-- The membership test `status in ["complete", "accepted", "declined",
"cancelled"]` used by `accept`/`decline`/`cancel`. -/
def isTerminalStatus (s : String) : Prop :=
  s = "complete" ∨ s = "accepted" ∨ s = "declined" ∨ s = "cancelled"

instance (s : String) : Decidable (isTerminalStatus s) := by
  unfold isTerminalStatus; infer_instance

/-- The block `if message: metadata.message = message` shared by all five
transition methods. -/
def withMessage (md : ElicitationMetadata) (message : Option String) :
    ElicitationMetadata :=
  match message with
  | some s => if s = "" then md else { md with message := s }
  | none => md

/-- The block `if token: metadata.collected_token = token;
metadata.token_validated = True` of `complete_elicitation`. -/
def withToken (md : ElicitationMetadata) (token : Option String) :
    ElicitationMetadata :=
  match token with
  | some t => if t = "" then md
      else { md with collected_token := some t, token_validated := true }
  | none => md

/-- The block `if not metadata.completed_promise.done():
metadata.completed_promise.set_result(None)` (else only a warning is
printed) shared by the four resolving methods. -/
def resolvePromise (md : ElicitationMetadata) : ElicitationMetadata :=
  if md.promiseDone then md else { md with promiseDone := true }

namespace ElicitationManager

/-- Store the (mutated) metadata object back under its id: Python mutates the
object held in `elicitations_map[elicitation_id]` in place. -/
def setRecord (m : ElicitationManager) (elicitation_id : String)
    (md : ElicitationMetadata) : ElicitationManager :=
  { m with elicitations_map :=
      fun i => if i = elicitation_id then some md else m.elicitations_map i }

/-- `generate_tracked_elicitation(session_id, message)`: the fresh
`uuid.uuid4()` string and the current time are inputs of the model. -/
def generate_tracked_elicitation (m : ElicitationManager)
    (elicitation_id session_id message : String) (now : Nat) : ElicitationManager :=
  m.setRecord elicitation_id (initMetadata session_id message now)

/-- `update_elicitation_progress(elicitation_id, message=None)`.
Unknown id → warning, return.  `status == "complete"` → warning, return.
Otherwise set `message` if truthy and increment `progress` (the subsequent
progress notification is I/O only). -/
def update_elicitation_progress (m : ElicitationManager)
    (elicitation_id : String) (message : Option String) : ElicitationManager :=
  match m.elicitations_map elicitation_id with
  | none => m
  | some md =>
    if md.status = "complete" then m
    else
      let md := withMessage md message
      m.setRecord elicitation_id { md with progress := md.progress + 1 }

/-- `complete_elicitation(elicitation_id, message=None, token=None)`.
Unknown id → warning, return.  `status == "complete"` → warning, return.
Otherwise set `status = "complete"`, `message` if truthy, on a truthy token
set `collected_token` and `token_validated = True`, increment `progress`,
(send the final notification,) and resolve `completed_promise` unless it is
already done (in which case only a warning is printed). -/
def complete_elicitation (m : ElicitationManager) (elicitation_id : String)
    (message token : Option String) : ElicitationManager :=
  match m.elicitations_map elicitation_id with
  | none => m
  | some md =>
    if md.status = "complete" then m
    else
      let md := { md with status := "complete" }
      let md := withMessage md message
      let md := withToken md token
      let md := { md with progress := md.progress + 1 }
      m.setRecord elicitation_id (resolvePromise md)

/-- `get_elicitation(elicitation_id)`: pure lookup. -/
def get_elicitation (m : ElicitationManager) (elicitation_id : String) :
    Option ElicitationMetadata :=
  m.elicitations_map elicitation_id

/-- `get_collected_token(elicitation_id)`: the token, only when the record
exists with `status == "complete"` and `token_validated`. -/
def get_collected_token (m : ElicitationManager) (elicitation_id : String) :
    Option String :=
  match m.elicitations_map elicitation_id with
  | some md =>
    if md.status = "complete" ∧ md.token_validated = true then md.collected_token
    else none
  | none => none

/-- `accept_elicitation(elicitation_id, message=None)`.
Unknown id → warning, return.  Status already in
`["complete", "accepted", "declined", "cancelled"]` → warning, return.
Otherwise set `status = "accepted"`, `message` if truthy, increment
`progress`, resolve the promise unless already done. -/
def accept_elicitation (m : ElicitationManager) (elicitation_id : String)
    (message : Option String) : ElicitationManager :=
  match m.elicitations_map elicitation_id with
  | none => m
  | some md =>
    if isTerminalStatus md.status then m
    else
      let md := { md with status := "accepted" }
      let md := withMessage md message
      let md := { md with progress := md.progress + 1 }
      m.setRecord elicitation_id (resolvePromise md)

/-- `decline_elicitation(elicitation_id, message=None)`: same shape as
`accept_elicitation` with status `"declined"`. -/
def decline_elicitation (m : ElicitationManager) (elicitation_id : String)
    (message : Option String) : ElicitationManager :=
  match m.elicitations_map elicitation_id with
  | none => m
  | some md =>
    if isTerminalStatus md.status then m
    else
      let md := { md with status := "declined" }
      let md := withMessage md message
      let md := { md with progress := md.progress + 1 }
      m.setRecord elicitation_id (resolvePromise md)

/-- `cancel_elicitation(elicitation_id, message=None)`: same shape as
`accept_elicitation` with status `"cancelled"`. -/
def cancel_elicitation (m : ElicitationManager) (elicitation_id : String)
    (message : Option String) : ElicitationManager :=
  match m.elicitations_map elicitation_id with
  | none => m
  | some md =>
    if isTerminalStatus md.status then m
    else
      let md := { md with status := "cancelled" }
      let md := withMessage md message
      let md := { md with progress := md.progress + 1 }
      m.setRecord elicitation_id (resolvePromise md)

/-- `cleanup_old_elicitations()` at current time `now`: the loop first collects
every id whose age exceeds the TTL and then deletes exactly those ids; over a
finite dict this equals removing each over-age binding pointwise.  Python
subtracts `datetime`s; ages are never negative there, matching truncated `Nat`
subtraction. -/
def cleanup_old_elicitations (m : ElicitationManager) (now : Nat) :
    ElicitationManager :=
  { m with elicitations_map := fun i =>
      match m.elicitations_map i with
      | some md => if now - md.created_at > ELICITATION_TTL then none else some md
      | none => none }

/-- `is_session_authenticated_for_service(session_id, service)`:
`False` when the session is unknown; else the inner dict's
`.get(service, {}).get("authenticated", False)`. -/
def is_session_authenticated_for_service (m : ElicitationManager)
    (session_id service : String) : Bool :=
  match m.session_service_auth session_id with
  | none => false
  | some serviceAuth =>
    match serviceAuth service with
    | none => false
    | some a => a.authenticated

/-- `mark_session_authenticated_for_service(session_id, service,
elicitation_id)` at current time `now`: upsert the inner dict entry
`{"authenticated": True, "elicitation_id": ..., "authenticated_at": now}`. -/
def mark_session_authenticated_for_service (m : ElicitationManager)
    (session_id service elicitation_id : String) (now : Nat) : ElicitationManager :=
  let inner := match m.session_service_auth session_id with
    | none => fun _ => none
    | some f => f
  let inner := fun s => if s = service then
      some { authenticated := true, elicitation_id := elicitation_id,
             authenticated_at := now }
    else inner s
  { m with session_service_auth :=
      fun sid => if sid = session_id then some inner else m.session_service_auth sid }

/-- `clear_session_auth_for_service(session_id, service)`: delete the inner
entry when both the session and the service entry exist, else do nothing. -/
def clear_session_auth_for_service (m : ElicitationManager)
    (session_id service : String) : ElicitationManager :=
  match m.session_service_auth session_id with
  | none => m
  | some inner =>
    match inner service with
    | none => m
    | some _ =>
      let inner := fun s => if s = service then none else inner s
      { m with session_service_auth :=
          fun sid => if sid = session_id then some inner else m.session_service_auth sid }

end ElicitationManager

/-! ## Operation traces

The Manager's public API as a syntactic operation type, so that properties
quantified over "any sequence of Manager calls" can be stated.  `create`,
`mark` and `cleanup` take the environment inputs (fresh uuid, current time)
as arguments. -/

/-- One call of the Manager's mutating API. -/
inductive ManagerOp where
  | create (elicitation_id session_id message : String) (now : Nat)
  | updateProgress (elicitation_id : String) (message : Option String)
  | complete (elicitation_id : String) (message token : Option String)
  | accept (elicitation_id : String) (message : Option String)
  | decline (elicitation_id : String) (message : Option String)
  | cancel (elicitation_id : String) (message : Option String)
  | cleanup (now : Nat)
  | markAuth (session_id service elicitation_id : String) (now : Nat)
  | clearAuth (session_id service : String)
deriving DecidableEq

/-- Dispatch one call. -/
def stepOp (m : ElicitationManager) : ManagerOp → ElicitationManager
  | .create eid sid msg now => m.generate_tracked_elicitation eid sid msg now
  | .updateProgress eid msg => m.update_elicitation_progress eid msg
  | .complete eid msg tok => m.complete_elicitation eid msg tok
  | .accept eid msg => m.accept_elicitation eid msg
  | .decline eid msg => m.decline_elicitation eid msg
  | .cancel eid msg => m.cancel_elicitation eid msg
  | .cleanup now => m.cleanup_old_elicitations now
  | .markAuth sid svc eid now => m.mark_session_authenticated_for_service sid svc eid now
  | .clearAuth sid svc => m.clear_session_auth_for_service sid svc

/-- Run a sequence of calls left to right. -/
def runOps (m : ElicitationManager) (ops : List ManagerOp) : ElicitationManager :=
  ops.foldl stepOp m

/-- The `done()` flag of a record's `completed_promise` (`false` when the
record is absent). -/
def promiseDoneOf (m : ElicitationManager) (elicitation_id : String) : Bool :=
  match m.elicitations_map elicitation_id with
  | some md => md.promiseDone
  | none => false

/-- The four resolving calls (`complete`/`accept`/`decline`/`cancel`). -/
def isResolveCall : ManagerOp → Prop
  | .complete _ _ _ => True
  | .accept _ _ => True
  | .decline _ _ => True
  | .cancel _ _ => True
  | _ => False

instance (op : ManagerOp) : Decidable (isResolveCall op) := by
  cases op <;> simp only [isResolveCall] <;> infer_instance

/-- Number of resolution events (`set_result` firings, i.e. the `done()` flag
of the record's promise flipping from `false` to `true`) for one record along
a sequence of calls. -/
def resolutionEvents (m : ElicitationManager) (ops : List ManagerOp)
    (elicitation_id : String) : Nat :=
  match ops with
  | [] => 0
  | op :: rest =>
    (if promiseDoneOf m elicitation_id = false ∧
        promiseDoneOf (stepOp m op) elicitation_id = true then 1 else 0)
      + resolutionEvents (stepOp m op) rest elicitation_id

/-- The invariant of claim C5: a validated token implies completed status. -/
def TokenInvariant (m : ElicitationManager) : Prop :=
  ∀ eid md, m.elicitations_map eid = some md → md.token_validated = true →
    md.status = "complete"

/-- The call `op` is `mark_session_authenticated_for_service` for this very
(session, service) pair. -/
def marksPair : ManagerOp → String → String → Prop
  | ManagerOp.markAuth sid svc _ _, session_id, service =>
      sid = session_id ∧ svc = service
  | _, _, _ => False

instance (op : ManagerOp) (sid svc : String) : Decidable (marksPair op sid svc) := by
  cases op <;> simp only [marksPair] <;> infer_instance

/-- The session auth cache entry of one (session, service) pair. -/
def authEntry (m : ElicitationManager) (session_id service : String) :
    Option ServiceAuth :=
  match m.session_service_auth session_id with
  | none => none
  | some inner => inner service

/-! ## Helper lemmas -/

@[simp] lemma withMessage_status (md : ElicitationMetadata) (msg : Option String) :
    (withMessage md msg).status = md.status := by
  cases msg <;> simp [withMessage, apply_ite]

@[simp] lemma withMessage_progress (md : ElicitationMetadata) (msg : Option String) :
    (withMessage md msg).progress = md.progress := by
  cases msg <;> simp [withMessage, apply_ite]

@[simp] lemma withMessage_promiseDone (md : ElicitationMetadata) (msg : Option String) :
    (withMessage md msg).promiseDone = md.promiseDone := by
  cases msg <;> simp [withMessage, apply_ite]

@[simp] lemma withMessage_collected_token (md : ElicitationMetadata) (msg : Option String) :
    (withMessage md msg).collected_token = md.collected_token := by
  cases msg <;> simp [withMessage, apply_ite]

@[simp] lemma withMessage_token_validated (md : ElicitationMetadata) (msg : Option String) :
    (withMessage md msg).token_validated = md.token_validated := by
  cases msg <;> simp [withMessage, apply_ite]

@[simp] lemma withMessage_created_at (md : ElicitationMetadata) (msg : Option String) :
    (withMessage md msg).created_at = md.created_at := by
  cases msg <;> simp [withMessage, apply_ite]

@[simp] lemma withMessage_session_id (md : ElicitationMetadata) (msg : Option String) :
    (withMessage md msg).session_id = md.session_id := by
  cases msg <;> simp [withMessage, apply_ite]

@[simp] lemma withToken_status (md : ElicitationMetadata) (tok : Option String) :
    (withToken md tok).status = md.status := by
  cases tok <;> simp [withToken, apply_ite]

@[simp] lemma withToken_progress (md : ElicitationMetadata) (tok : Option String) :
    (withToken md tok).progress = md.progress := by
  cases tok <;> simp [withToken, apply_ite]

@[simp] lemma withToken_promiseDone (md : ElicitationMetadata) (tok : Option String) :
    (withToken md tok).promiseDone = md.promiseDone := by
  cases tok <;> simp [withToken, apply_ite]

@[simp] lemma withToken_message (md : ElicitationMetadata) (tok : Option String) :
    (withToken md tok).message = md.message := by
  cases tok <;> simp [withToken, apply_ite]

@[simp] lemma withToken_created_at (md : ElicitationMetadata) (tok : Option String) :
    (withToken md tok).created_at = md.created_at := by
  cases tok <;> simp [withToken, apply_ite]

@[simp] lemma resolvePromise_status (md : ElicitationMetadata) :
    (resolvePromise md).status = md.status := by
  rw [resolvePromise]; split <;> rfl

@[simp] lemma resolvePromise_progress (md : ElicitationMetadata) :
    (resolvePromise md).progress = md.progress := by
  rw [resolvePromise]; split <;> rfl

@[simp] lemma resolvePromise_collected_token (md : ElicitationMetadata) :
    (resolvePromise md).collected_token = md.collected_token := by
  rw [resolvePromise]; split <;> rfl

@[simp] lemma resolvePromise_token_validated (md : ElicitationMetadata) :
    (resolvePromise md).token_validated = md.token_validated := by
  rw [resolvePromise]; split <;> rfl

@[simp] lemma resolvePromise_message (md : ElicitationMetadata) :
    (resolvePromise md).message = md.message := by
  rw [resolvePromise]; split <;> rfl

@[simp] lemma resolvePromise_created_at (md : ElicitationMetadata) :
    (resolvePromise md).created_at = md.created_at := by
  rw [resolvePromise]; split <;> rfl

@[simp] lemma resolvePromise_promiseDone (md : ElicitationMetadata) :
    (resolvePromise md).promiseDone = true := by
  unfold resolvePromise; split
  case isTrue h => exact h
  case isFalse h => rfl

@[simp] lemma lookup_setRecord (m : ElicitationManager) (i j : String)
    (md : ElicitationMetadata) :
    (m.setRecord i md).elicitations_map j =
      if j = i then some md else m.elicitations_map j := rfl

@[simp] lemma setRecord_auth (m : ElicitationManager) (i : String)
    (md : ElicitationMetadata) :
    (m.setRecord i md).session_service_auth = m.session_service_auth := rfl

/-- Provenance of a record found in the store after one Manager call: it was
already there unchanged, or the call is the (unique) one of the five mutating
branches that wrote it, with the written value spelled out. -/
lemma stepOp_lookup_cases (m : ElicitationManager) (op : ManagerOp) (j : String)
    (md2 : ElicitationMetadata)
    (h2 : (stepOp m op).elicitations_map j = some md2) :
    m.elicitations_map j = some md2 ∨
    (∃ sid msg now, op = ManagerOp.create j sid msg now ∧
       md2 = initMetadata sid msg now) ∨
    (∃ md msg, m.elicitations_map j = some md ∧ ¬(md.status = "complete") ∧
       op = ManagerOp.updateProgress j msg ∧
       md2 = { withMessage md msg with
                 progress := (withMessage md msg).progress + 1 }) ∨
    (∃ md msg tok, m.elicitations_map j = some md ∧ ¬(md.status = "complete") ∧
       op = ManagerOp.complete j msg tok ∧
       md2 = resolvePromise
         { withToken (withMessage { md with status := "complete" } msg) tok with
             progress :=
               (withToken (withMessage { md with status := "complete" } msg)
                 tok).progress + 1 }) ∨
    (∃ md msg s, m.elicitations_map j = some md ∧ ¬ isTerminalStatus md.status ∧
       (s = "accepted" ∨ s = "declined" ∨ s = "cancelled") ∧
       md2 = resolvePromise
         { withMessage { md with status := s } msg with
             progress := (withMessage { md with status := s } msg).progress + 1 }) := by
  cases op with
  | create eid sid msg now =>
    simp only [stepOp, ElicitationManager.generate_tracked_elicitation,
      lookup_setRecord] at h2
    by_cases hje : j = eid
    · subst hje
      rw [if_pos rfl] at h2
      injection h2 with h3
      exact Or.inr (Or.inl ⟨sid, msg, now, rfl, h3.symm⟩)
    · rw [if_neg hje] at h2
      exact Or.inl h2
  | updateProgress eid msg =>
    simp only [stepOp, ElicitationManager.update_elicitation_progress] at h2
    split at h2
    · exact Or.inl h2
    next md hm =>
      split at h2
      · exact Or.inl h2
      next hc =>
        simp only [lookup_setRecord] at h2
        by_cases hje : j = eid
        · subst hje
          rw [if_pos rfl] at h2
          injection h2 with h3
          exact Or.inr (Or.inr (Or.inl ⟨md, msg, hm, hc, rfl, h3.symm⟩))
        · rw [if_neg hje] at h2
          exact Or.inl h2
  | complete eid msg tok =>
    simp only [stepOp, ElicitationManager.complete_elicitation] at h2
    split at h2
    · exact Or.inl h2
    next md hm =>
      split at h2
      · exact Or.inl h2
      next hc =>
        simp only [lookup_setRecord] at h2
        by_cases hje : j = eid
        · subst hje
          rw [if_pos rfl] at h2
          injection h2 with h3
          exact Or.inr (Or.inr (Or.inr (Or.inl
            ⟨md, msg, tok, hm, hc, rfl, h3.symm⟩)))
        · rw [if_neg hje] at h2
          exact Or.inl h2
  | accept eid msg =>
    simp only [stepOp, ElicitationManager.accept_elicitation] at h2
    split at h2
    · exact Or.inl h2
    next md hm =>
      split at h2
      · exact Or.inl h2
      next hc =>
        simp only [lookup_setRecord] at h2
        by_cases hje : j = eid
        · subst hje
          rw [if_pos rfl] at h2
          injection h2 with h3
          exact Or.inr (Or.inr (Or.inr (Or.inr
            ⟨md, msg, "accepted", hm, hc, Or.inl rfl, h3.symm⟩)))
        · rw [if_neg hje] at h2
          exact Or.inl h2
  | decline eid msg =>
    simp only [stepOp, ElicitationManager.decline_elicitation] at h2
    split at h2
    · exact Or.inl h2
    next md hm =>
      split at h2
      · exact Or.inl h2
      next hc =>
        simp only [lookup_setRecord] at h2
        by_cases hje : j = eid
        · subst hje
          rw [if_pos rfl] at h2
          injection h2 with h3
          exact Or.inr (Or.inr (Or.inr (Or.inr
            ⟨md, msg, "declined", hm, hc, Or.inr (Or.inl rfl), h3.symm⟩)))
        · rw [if_neg hje] at h2
          exact Or.inl h2
  | cancel eid msg =>
    simp only [stepOp, ElicitationManager.cancel_elicitation] at h2
    split at h2
    · exact Or.inl h2
    next md hm =>
      split at h2
      · exact Or.inl h2
      next hc =>
        simp only [lookup_setRecord] at h2
        by_cases hje : j = eid
        · subst hje
          rw [if_pos rfl] at h2
          injection h2 with h3
          exact Or.inr (Or.inr (Or.inr (Or.inr
            ⟨md, msg, "cancelled", hm, hc, Or.inr (Or.inr rfl), h3.symm⟩)))
        · rw [if_neg hje] at h2
          exact Or.inl h2
  | cleanup now =>
    simp only [stepOp, ElicitationManager.cleanup_old_elicitations] at h2
    split at h2
    next md hm =>
      split at h2
      · exact absurd h2 (by simp)
      · injection h2 with h3
        rw [← h3]
        exact Or.inl hm
    next hm => exact absurd h2 (by simp)
  | markAuth sid svc eid now =>
    exact Or.inl h2
  | clearAuth sid svc =>
    simp only [stepOp, ElicitationManager.clear_session_auth_for_service] at h2
    split at h2
    · exact Or.inl h2
    next inner hm =>
      split at h2
      · exact Or.inl h2
      · exact Or.inl h2

lemma tokenInvariant_initial : TokenInvariant initialManager := by
  intro eid md h
  cases h

lemma tokenInvariant_stepOp (m : ElicitationManager) (op : ManagerOp)
    (h : TokenInvariant m) : TokenInvariant (stepOp m op) := by
  intro j md2 h2 hv
  rcases stepOp_lookup_cases m op j md2 h2 with hold |
    ⟨sid, msg, now, _, hmd⟩ | ⟨md, msg, hm, hc, _, hmd⟩ |
    ⟨md, msg, tok, hm, hc, _, hmd⟩ | ⟨md, msg, s, hm, hterm, hs, hmd⟩
  · exact h j md2 hold hv
  · rw [hmd] at hv
    simp [initMetadata] at hv
  · rw [hmd] at hv
    simp only [withMessage_token_validated] at hv
    exact absurd (h j md hm hv) hc
  · rw [hmd]
    simp
  · rw [hmd] at hv
    simp only [resolvePromise_token_validated, withMessage_token_validated] at hv
    exact absurd (Or.inl (h j md hm hv)) hterm

lemma tokenInvariant_runOps (m : ElicitationManager) (ops : List ManagerOp)
    (h : TokenInvariant m) : TokenInvariant (runOps m ops) := by
  induction ops generalizing m with
  | nil => exact h
  | cons op rest ih => exact ih (stepOp m op) (tokenInvariant_stepOp m op h)

/-! ## C1: status transitions -/

/-- **C1, counterexample.**  The claim "once status leaves `pending`, no
further Manager call changes its status, and repeated
complete/accept/decline/cancel calls after a terminal state are no-ops"
fails on the code: `complete_elicitation` only rejects records whose status
is already `"complete"`, so after `create("e1")` and `accept("e1")` (status
`"accepted"`, a terminal state, progress 1) a further `complete("e1")` call
changes the status to `"complete"` and the progress to 2. -/
theorem C1_counterexample :
    ((runOps initialManager [ManagerOp.create "e1" "s1" "In progress" 0,
        ManagerOp.accept "e1" none]).elicitations_map "e1").map
          ElicitationMetadata.status = some "accepted" ∧
    isTerminalStatus "accepted" ∧
    ((runOps initialManager [ManagerOp.create "e1" "s1" "In progress" 0,
        ManagerOp.accept "e1" none,
        ManagerOp.complete "e1" none none]).elicitations_map "e1").map
          ElicitationMetadata.status = some "complete" ∧
    ((runOps initialManager [ManagerOp.create "e1" "s1" "In progress" 0,
        ManagerOp.accept "e1" none]).elicitations_map "e1").map
          ElicitationMetadata.progress = some 1 ∧
    ((runOps initialManager [ManagerOp.create "e1" "s1" "In progress" 0,
        ManagerOp.accept "e1" none,
        ManagerOp.complete "e1" none none]).elicitations_map "e1").map
          ElicitationMetadata.progress = some 2 := by
  refine ⟨by decide, ?_, by decide, by decide, by decide⟩
  unfold isTerminalStatus; decide

/-- **C1, amended.**  Status `"complete"` is absorbing: on a record whose
status is `"complete"`, every one of the five transition calls is a no-op
that leaves the whole Manager state (hence progress and status) unchanged.
On a record in any terminal state, repeated `accept`/`decline`/`cancel`
calls are no-ops; however `complete` (and `update_progress`) are only
guarded against `"complete"`, so the only status change possible out of a
terminal state is to `"complete"`. -/
theorem C1_amended (m : ElicitationManager) (eid : String)
    (md : ElicitationMetadata) (h : m.elicitations_map eid = some md)
    (msg tok : Option String) :
    (md.status = "complete" →
      m.update_elicitation_progress eid msg = m ∧
      m.complete_elicitation eid msg tok = m ∧
      m.accept_elicitation eid msg = m ∧
      m.decline_elicitation eid msg = m ∧
      m.cancel_elicitation eid msg = m) ∧
    (isTerminalStatus md.status →
      m.accept_elicitation eid msg = m ∧
      m.decline_elicitation eid msg = m ∧
      m.cancel_elicitation eid msg = m ∧
      ∀ md2, (m.complete_elicitation eid msg tok).elicitations_map eid = some md2 →
        md2.status = "complete") := by
  constructor
  · intro hc
    have ht2 : isTerminalStatus "complete" := Or.inl rfl
    refine ⟨?_, ?_, ?_, ?_, ?_⟩ <;>
      simp [ElicitationManager.update_elicitation_progress,
        ElicitationManager.complete_elicitation,
        ElicitationManager.accept_elicitation,
        ElicitationManager.decline_elicitation,
        ElicitationManager.cancel_elicitation, h, hc, ht2]
  · intro ht
    refine ⟨?_, ?_, ?_, ?_⟩
    · simp [ElicitationManager.accept_elicitation, h, ht]
    · simp [ElicitationManager.decline_elicitation, h, ht]
    · simp [ElicitationManager.cancel_elicitation, h, ht]
    · intro md2 h2
      simp only [ElicitationManager.complete_elicitation, h] at h2
      by_cases hc : md.status = "complete"
      · rw [if_pos hc, h] at h2
        injection h2 with h3
        rw [← h3]
        exact hc
      · rw [if_neg hc] at h2
        simp only [lookup_setRecord, if_pos] at h2
        injection h2 with h3
        rw [← h3]
        simp

/-- **C1, witness** for the amended theorem: a concrete Manager holding a
record of status `"complete"`, on which all five calls are no-ops. -/
theorem C1_amended_witness :
    ((runOps initialManager [ManagerOp.create "e1" "s1" "In progress" 0,
        ManagerOp.complete "e1" none none]).update_elicitation_progress "e1" none
      = runOps initialManager [ManagerOp.create "e1" "s1" "In progress" 0,
          ManagerOp.complete "e1" none none]) ∧
    ((runOps initialManager [ManagerOp.create "e1" "s1" "In progress" 0,
        ManagerOp.complete "e1" none none]).cancel_elicitation "e1" none
      = runOps initialManager [ManagerOp.create "e1" "s1" "In progress" 0,
          ManagerOp.complete "e1" none none]) := by
  have h := C1_amended
    (runOps initialManager [ManagerOp.create "e1" "s1" "In progress" 0,
      ManagerOp.complete "e1" none none]) "e1"
    { status := "complete", progress := 1, promiseDone := true, created_at := 0,
      session_id := "s1", message := "In progress",
      collected_token := none, token_validated := false }
    (by decide) none none
  exact ⟨(h.1 rfl).1, (h.1 rfl).2.2.2.2⟩

/-! ## C4: update_progress guard -/

/-- **C4, counterexample.**  The claim "update_progress is a no-op whenever
the Record is already in any terminal state" fails: after `create("e1")` and
`accept("e1")` the record is terminal (`"accepted"`), yet
`update_progress("e1")` increments its progress from 1 to 2. -/
theorem C4_counterexample :
    ((runOps initialManager [ManagerOp.create "e1" "s1" "In progress" 0,
        ManagerOp.accept "e1" none]).elicitations_map "e1").map
          ElicitationMetadata.status = some "accepted" ∧
    isTerminalStatus "accepted" ∧
    ((runOps initialManager [ManagerOp.create "e1" "s1" "In progress" 0,
        ManagerOp.accept "e1" none]).elicitations_map "e1").map
          ElicitationMetadata.progress = some 1 ∧
    (((runOps initialManager [ManagerOp.create "e1" "s1" "In progress" 0,
        ManagerOp.accept "e1" none]).update_elicitation_progress "e1"
          none).elicitations_map "e1").map
          ElicitationMetadata.progress = some 2 := by
  refine ⟨by decide, ?_, by decide, by decide⟩
  unfold isTerminalStatus; decide

/-- **C4, amended.**  `update_progress(id, message?)` is a no-op (Store state
unchanged, no exception — the operation is a total function) exactly when
`id` is unknown or the Record's status is already `"complete"` (not any
terminal state); otherwise it sets `message` when a truthy one is given and
increments `progress` by one, leaving every other record untouched. -/
theorem C4_amended (m : ElicitationManager) (eid : String) (msg : Option String) :
    (m.elicitations_map eid = none → m.update_elicitation_progress eid msg = m) ∧
    (∀ md, m.elicitations_map eid = some md → md.status = "complete" →
      m.update_elicitation_progress eid msg = m) ∧
    (∀ md, m.elicitations_map eid = some md → ¬(md.status = "complete") →
      (m.update_elicitation_progress eid msg).elicitations_map eid =
        some { withMessage md msg with progress := md.progress + 1 } ∧
      ∀ j, ¬(j = eid) → (m.update_elicitation_progress eid msg).elicitations_map j
        = m.elicitations_map j) := by
  refine ⟨?_, ?_, ?_⟩
  · intro h
    simp [ElicitationManager.update_elicitation_progress, h]
  · intro md h hc
    simp [ElicitationManager.update_elicitation_progress, h, hc]
  · intro md h hc
    constructor
    · simp [ElicitationManager.update_elicitation_progress, h, hc]
    · intro j hj
      simp [ElicitationManager.update_elicitation_progress, h, hc, hj]

/-- **C4, witness** for the amended theorem: on a fresh pending record,
`update_progress` with message `"step"` stores message `"step"` and
progress 1. -/
theorem C4_amended_witness :
    ((runOps initialManager [ManagerOp.create "e1" "s1" "In progress" 0]
      ).update_elicitation_progress "e1" (some "step")).elicitations_map "e1" =
      some { status := "pending", progress := 1, promiseDone := false,
             created_at := 0, session_id := "s1", message := "step",
             collected_token := none, token_validated := false } := by
  have h := (C4_amended
    (runOps initialManager [ManagerOp.create "e1" "s1" "In progress" 0])
    "e1" (some "step")).2.2
    { status := "pending", progress := 0, promiseDone := false, created_at := 0,
      session_id := "s1", message := "In progress",
      collected_token := none, token_validated := false }
    (by decide) (by decide)
  rw [h.1]
  decide

/-! ## C2: token isolation -/

/-- **C2.**  Token isolation: (i) on a record whose status is `"accepted"`,
`"declined"` or `"cancelled"` (i.e. resolved via accept/decline/cancel and
not since re-resolved by a complete call), `get_collected_token` returns
`none`; (ii) `accept`/`decline`/`cancel` never change any record's
`collected_token` or `token_validated`, whatever message string is smuggled
into the call; (iii) across every Manager call, the only way an unpopulated
(`collected_token = none`, `token_validated = false`) record becomes
populated is a `complete` call on its id carrying a truthy token. -/
theorem C2_token_isolation :
    (∀ (m : ElicitationManager) (eid : String) (md : ElicitationMetadata),
       m.elicitations_map eid = some md →
       md.status = "accepted" ∨ md.status = "declined" ∨ md.status = "cancelled" →
       m.get_collected_token eid = none) ∧
    (∀ (m : ElicitationManager) (eid j : String) (msg : Option String),
       ((m.accept_elicitation eid msg).elicitations_map j).map
           (fun md => (md.collected_token, md.token_validated))
         = (m.elicitations_map j).map
             (fun md => (md.collected_token, md.token_validated)) ∧
       ((m.decline_elicitation eid msg).elicitations_map j).map
           (fun md => (md.collected_token, md.token_validated))
         = (m.elicitations_map j).map
             (fun md => (md.collected_token, md.token_validated)) ∧
       ((m.cancel_elicitation eid msg).elicitations_map j).map
           (fun md => (md.collected_token, md.token_validated))
         = (m.elicitations_map j).map
             (fun md => (md.collected_token, md.token_validated))) ∧
    (∀ (m : ElicitationManager) (op : ManagerOp) (eid : String)
       (md md2 : ElicitationMetadata),
       m.elicitations_map eid = some md →
       (stepOp m op).elicitations_map eid = some md2 →
       md.collected_token = none → md.token_validated = false →
       (¬(md2.collected_token = none) ∨ md2.token_validated = true) →
       ∃ msg t, op = ManagerOp.complete eid msg (some t) ∧ ¬(t = "")) := by
  refine ⟨?_, ?_, ?_⟩
  · intro m eid md h hs
    simp only [ElicitationManager.get_collected_token, h]
    rcases hs with h1 | h1 | h1 <;>
      · rw [if_neg]
        rintro ⟨hc, -⟩
        rw [h1] at hc
        exact absurd hc (by decide)
  · intro m eid j msg
    refine ⟨?_, ?_, ?_⟩
    · simp only [ElicitationManager.accept_elicitation]
      split
      · rfl
      next md hm =>
        split
        · rfl
        next hterm =>
          simp only [lookup_setRecord]
          by_cases hje : j = eid
          · subst hje
            rw [if_pos rfl, hm]
            simp
          · rw [if_neg hje]
    · simp only [ElicitationManager.decline_elicitation]
      split
      · rfl
      next md hm =>
        split
        · rfl
        next hterm =>
          simp only [lookup_setRecord]
          by_cases hje : j = eid
          · subst hje
            rw [if_pos rfl, hm]
            simp
          · rw [if_neg hje]
    · simp only [ElicitationManager.cancel_elicitation]
      split
      · rfl
      next md hm =>
        split
        · rfl
        next hterm =>
          simp only [lookup_setRecord]
          by_cases hje : j = eid
          · subst hje
            rw [if_pos rfl, hm]
            simp
          · rw [if_neg hje]
  · intro m op eid md md2 h h2 hnone hval hchange
    rcases stepOp_lookup_cases m op eid md2 h2 with hold |
      ⟨sid, msg, now, hop, hmd⟩ | ⟨md3, msg, hm, hc, hop, hmd⟩ |
      ⟨md3, msg, tok, hm, hc, hop, hmd⟩ | ⟨md3, msg, s, hm, hterm, hs, hmd⟩
    · have he : md = md2 := by
        rw [h] at hold
        exact Option.some.inj hold
      have hfacts : md2.collected_token = none ∧ md2.token_validated = false := by
        rw [← he]
        exact ⟨hnone, hval⟩
      rcases hchange with hch | hch
      · exact absurd hfacts.1 hch
      · rw [hfacts.2] at hch
        simp at hch
    · have hfacts : md2.collected_token = none ∧ md2.token_validated = false := by
        rw [hmd]
        exact ⟨rfl, rfl⟩
      rcases hchange with hch | hch
      · exact absurd hfacts.1 hch
      · rw [hfacts.2] at hch
        simp at hch
    · have he : md3 = md := by
        rw [h] at hm
        exact (Option.some.inj hm).symm
      have hfacts : md2.collected_token = none ∧ md2.token_validated = false := by
        constructor <;> rw [hmd] <;> simp [he, hnone, hval]
      rcases hchange with hch | hch
      · exact absurd hfacts.1 hch
      · rw [hfacts.2] at hch
        simp at hch
    · have he : md3 = md := by
        rw [h] at hm
        exact (Option.some.inj hm).symm
      cases tok with
      | none =>
        have hfacts : md2.collected_token = none ∧ md2.token_validated = false := by
          constructor <;> rw [hmd] <;> simp [withToken, he, hnone, hval]
        rcases hchange with hch | hch
        · exact absurd hfacts.1 hch
        · rw [hfacts.2] at hch
          simp at hch
      | some t =>
        by_cases ht : t = ""
        · have hfacts : md2.collected_token = none ∧ md2.token_validated = false := by
            constructor <;> rw [hmd] <;> simp [withToken, ht, he, hnone, hval]
          rcases hchange with hch | hch
          · exact absurd hfacts.1 hch
          · rw [hfacts.2] at hch
            simp at hch
        · exact ⟨msg, t, hop, ht⟩
    · have he : md3 = md := by
        rw [h] at hm
        exact (Option.some.inj hm).symm
      have hfacts : md2.collected_token = none ∧ md2.token_validated = false := by
        constructor <;> rw [hmd] <;> simp [he, hnone, hval]
      rcases hchange with hch | hch
      · exact absurd hfacts.1 hch
      · rw [hfacts.2] at hch
        simp at hch

/-- **C2, witness**: a concrete record resolved via `accept` (status
`"accepted"`) yields no token. -/
theorem C2_witness :
    (runOps initialManager [ManagerOp.create "e1" "s1" "In progress" 0,
      ManagerOp.accept "e1" (some "ghp_smuggled")]).get_collected_token "e1"
      = none :=
  C2_token_isolation.1
    (runOps initialManager [ManagerOp.create "e1" "s1" "In progress" 0,
      ManagerOp.accept "e1" (some "ghp_smuggled")]) "e1"
    { status := "accepted", progress := 1, promiseDone := true, created_at := 0,
      session_id := "s1", message := "ghp_smuggled",
      collected_token := none, token_validated := false }
    (by decide) (Or.inl rfl)

/-! ## C3: single resolution -/

lemma promiseDoneOf_mono_resolve (m : ElicitationManager) (op : ManagerOp)
    (hop : isResolveCall op) (eid : String)
    (h : promiseDoneOf m eid = true) : promiseDoneOf (stepOp m op) eid = true := by
  simp only [promiseDoneOf] at h
  cases op with
  | create eid2 sid msg now => simp only [isResolveCall] at hop
  | updateProgress eid2 msg => simp only [isResolveCall] at hop
  | cleanup now => simp only [isResolveCall] at hop
  | markAuth sid svc eid2 now => simp only [isResolveCall] at hop
  | clearAuth sid svc => simp only [isResolveCall] at hop
  | complete eid2 msg tok =>
    simp only [stepOp, ElicitationManager.complete_elicitation]
    split
    · exact h
    next md hm =>
      split
      · exact h
      next hc =>
        simp only [promiseDoneOf, lookup_setRecord]
        by_cases hje : eid = eid2
        · rw [if_pos hje]
          simp
        · rw [if_neg hje]
          exact h
  | accept eid2 msg =>
    simp only [stepOp, ElicitationManager.accept_elicitation]
    split
    · exact h
    next md hm =>
      split
      · exact h
      next hc =>
        simp only [promiseDoneOf, lookup_setRecord]
        by_cases hje : eid = eid2
        · rw [if_pos hje]
          simp
        · rw [if_neg hje]
          exact h
  | decline eid2 msg =>
    simp only [stepOp, ElicitationManager.decline_elicitation]
    split
    · exact h
    next md hm =>
      split
      · exact h
      next hc =>
        simp only [promiseDoneOf, lookup_setRecord]
        by_cases hje : eid = eid2
        · rw [if_pos hje]
          simp
        · rw [if_neg hje]
          exact h
  | cancel eid2 msg =>
    simp only [stepOp, ElicitationManager.cancel_elicitation]
    split
    · exact h
    next md hm =>
      split
      · exact h
      next hc =>
        simp only [promiseDoneOf, lookup_setRecord]
        by_cases hje : eid = eid2
        · rw [if_pos hje]
          simp
        · rw [if_neg hje]
          exact h

lemma promiseDoneOf_runOps_mono (m : ElicitationManager) (ops : List ManagerOp)
    (hops : ∀ op ∈ ops, isResolveCall op) (eid : String)
    (h : promiseDoneOf m eid = true) : promiseDoneOf (runOps m ops) eid = true := by
  induction ops generalizing m with
  | nil => exact h
  | cons op rest ih =>
    exact ih (stepOp m op) (fun o ho => hops o (List.mem_cons_of_mem op ho))
      (promiseDoneOf_mono_resolve m op (hops op (List.mem_cons_self op rest)) eid h)

/-- Along resolving calls the promise flag is monotone, so the number of
resolution events is 1 exactly when the flag goes from unresolved to
resolved, and 0 otherwise. -/
lemma resolutionEvents_characterization (m : ElicitationManager)
    (ops : List ManagerOp) (eid : String)
    (hops : ∀ op ∈ ops, isResolveCall op) :
    resolutionEvents m ops eid =
      if promiseDoneOf m eid = false ∧ promiseDoneOf (runOps m ops) eid = true
      then 1 else 0 := by
  induction ops generalizing m with
  | nil =>
    cases hd : promiseDoneOf m eid <;> simp [resolutionEvents, runOps, hd]
  | cons op rest ih =>
    have hop : isResolveCall op := hops op (List.mem_cons_self op rest)
    have hrest : ∀ o ∈ rest, isResolveCall o :=
      fun o ho => hops o (List.mem_cons_of_mem op ho)
    have hrun : runOps m (op :: rest) = runOps (stepOp m op) rest := rfl
    rw [hrun]
    show (if promiseDoneOf m eid = false ∧
        promiseDoneOf (stepOp m op) eid = true then 1 else 0)
      + resolutionEvents (stepOp m op) rest eid = _
    rw [ih (stepOp m op) hrest]
    cases hd0 : promiseDoneOf m eid with
    | true =>
      have hd1 : promiseDoneOf (stepOp m op) eid = true :=
        promiseDoneOf_mono_resolve m op hop eid hd0
      simp [hd0, hd1]
    | false =>
      cases hd1 : promiseDoneOf (stepOp m op) eid with
      | true =>
        have hdend : promiseDoneOf (runOps (stepOp m op) rest) eid = true :=
          promiseDoneOf_runOps_mono (stepOp m op) rest hrest eid hd1
        simp [hd0, hd1, hdend]
      | false =>
        simp [hd0, hd1]

/-- **C3.**  Single resolution: along any sequence of
`complete`/`accept`/`decline`/`cancel` calls, a record's completion promise
fires at most one resolution event; exactly one when the record starts
unresolved and ends resolved; and a call that finds the promise already
resolved never resolves it again (no double-wake) — zero further events, the
flag merely stays set.  (No call raises: every operation is a total
function on the Manager state.) -/
theorem C3_single_resolution (m : ElicitationManager) (ops : List ManagerOp)
    (eid : String) (hops : ∀ op ∈ ops, isResolveCall op) :
    resolutionEvents m ops eid ≤ 1 ∧
    (promiseDoneOf m eid = false → promiseDoneOf (runOps m ops) eid = true →
      resolutionEvents m ops eid = 1) ∧
    (promiseDoneOf m eid = true →
      resolutionEvents m ops eid = 0 ∧ promiseDoneOf (runOps m ops) eid = true) := by
  have hchar := resolutionEvents_characterization m ops eid hops
  refine ⟨?_, ?_, ?_⟩
  · rw [hchar]
    split <;> simp
  · intro h0 hend
    rw [hchar, if_pos ⟨h0, hend⟩]
  · intro h0
    constructor
    · rw [hchar, if_neg]
      rintro ⟨hc, -⟩
      rw [h0] at hc
      simp at hc
    · exact promiseDoneOf_runOps_mono m ops hops eid h0

/-- **C3, witness**: for a fresh record, the sequence `accept` then
`complete` (which still mutates state, see C1) fires exactly one resolution
event. -/
theorem C3_witness :
    resolutionEvents
      (runOps initialManager [ManagerOp.create "e1" "s1" "In progress" 0])
      [ManagerOp.accept "e1" none, ManagerOp.complete "e1" none (some "ghp_abc")]
      "e1" = 1 :=
  (C3_single_resolution
    (runOps initialManager [ManagerOp.create "e1" "s1" "In progress" 0])
    [ManagerOp.accept "e1" none, ManagerOp.complete "e1" none (some "ghp_abc")]
    "e1" (by decide)).2.1 (by decide) (by decide)

/-! ## C5: token_validated implies complete -/

/-- **C5.**  Invariant of every state reachable from the initial Manager by
any sequence of Manager calls (create, update_progress, complete, accept,
decline, cancel, cleanup, and the session-auth operations): a record with
`token_validated = true` has `status = "complete"`. -/
theorem C5_token_validated_implies_complete (ops : List ManagerOp)
    (eid : String) (md : ElicitationMetadata)
    (h : (runOps initialManager ops).elicitations_map eid = some md)
    (hv : md.token_validated = true) : md.status = "complete" :=
  tokenInvariant_runOps initialManager ops tokenInvariant_initial eid md h hv

/-- **C5, witness**: after `create` and `complete` with token `"ghp_abc"`,
the stored record (which has `token_validated = true`) has status
`"complete"`. -/
theorem C5_witness :
    ({ status := "complete", progress := 1, promiseDone := true, created_at := 0,
       session_id := "s1", message := "done", collected_token := some "ghp_abc",
       token_validated := true } : ElicitationMetadata).status = "complete" :=
  C5_token_validated_implies_complete
    [ManagerOp.create "e1" "s1" "In progress" 0,
     ManagerOp.complete "e1" (some "done") (some "ghp_abc")] "e1"
    { status := "complete", progress := 1, promiseDone := true, created_at := 0,
      session_id := "s1", message := "done", collected_token := some "ghp_abc",
      token_validated := true }
    (by decide) (by decide)

/-! ## C6: get_collected_token functional spec -/

/-- **C6.**  `get_collected_token(id)` returns the stored token only if the
record exists with `status = "complete"` and `token_validated = true`; it
returns `none` for an unknown id, a non-complete status, or a non-validated
token.  Scenario A: after `create` for a session and `complete(id, message,
t)` with a non-empty token `t` on the (pending) record,
`get_collected_token(id)` returns `t`. -/
theorem C6_get_collected_token_spec :
    (∀ (m : ElicitationManager) (eid t : String),
       m.get_collected_token eid = some t →
       ∃ md, m.elicitations_map eid = some md ∧ md.status = "complete" ∧
         md.token_validated = true ∧ md.collected_token = some t) ∧
    (∀ (m : ElicitationManager) (eid : String),
       m.elicitations_map eid = none → m.get_collected_token eid = none) ∧
    (∀ (m : ElicitationManager) (eid : String) (md : ElicitationMetadata),
       m.elicitations_map eid = some md → ¬(md.status = "complete") →
       m.get_collected_token eid = none) ∧
    (∀ (m : ElicitationManager) (eid : String) (md : ElicitationMetadata),
       m.elicitations_map eid = some md → md.token_validated = false →
       m.get_collected_token eid = none) ∧
    (∀ (m : ElicitationManager) (eid sid msg : String) (msg2 tok2 : Option String)
       (t : String) (now : Nat), tok2 = some t → ¬(t = "") →
       (stepOp (stepOp m (ManagerOp.create eid sid msg now))
         (ManagerOp.complete eid msg2 tok2)).get_collected_token eid = some t) := by
  refine ⟨?_, ?_, ?_, ?_, ?_⟩
  · intro m eid t h
    simp only [ElicitationManager.get_collected_token] at h
    split at h
    next md hm =>
      split at h
      next hcond => exact ⟨md, hm, hcond.1, hcond.2, h⟩
      next => cases h
    next => cases h
  · intro m eid h
    simp [ElicitationManager.get_collected_token, h]
  · intro m eid md h hc
    simp [ElicitationManager.get_collected_token, h, hc]
  · intro m eid md h hv
    simp [ElicitationManager.get_collected_token, h, hv]
  · intro m eid sid msg msg2 tok2 t now htok ht
    subst htok
    have h1 : (m.generate_tracked_elicitation eid sid msg now).elicitations_map eid
        = some (initMetadata sid msg now) := by
      simp [ElicitationManager.generate_tracked_elicitation]
    simp only [stepOp, ElicitationManager.complete_elicitation, h1]
    rw [if_neg (by simp [initMetadata])]
    simp [ElicitationManager.get_collected_token, withToken, resolvePromise,
      initMetadata, ht]

/-- **C6, witness**: Scenario A concretely — `create` for session `s1`, then
`complete(id, "done", "ghp_abc")`, then `get_collected_token` returns
`"ghp_abc"`. -/
theorem C6_witness :
    (stepOp (stepOp initialManager (ManagerOp.create "e1" "s1" "In progress" 0))
      (ManagerOp.complete "e1" (some "done") (some "ghp_abc"))
      ).get_collected_token "e1" = some "ghp_abc" :=
  C6_get_collected_token_spec.2.2.2.2 initialManager "e1" "s1" "In progress"
    (some "done") (some "ghp_abc") "ghp_abc" 0 rfl (by decide)

/-! ## C7: TTL sweep -/

/-- **C7.**  The TTL sweep removes exactly the records whose age
`now - created_at` strictly exceeds the TTL, whatever their status; every
younger record stays, unchanged; absent ids stay absent; and the session
auth cache is untouched by the sweep. -/
theorem C7_ttl_sweep (m : ElicitationManager) (now : Nat) :
    (∀ eid md, m.elicitations_map eid = some md →
       (now - md.created_at > ELICITATION_TTL →
          (m.cleanup_old_elicitations now).elicitations_map eid = none) ∧
       (¬(now - md.created_at > ELICITATION_TTL) →
          (m.cleanup_old_elicitations now).elicitations_map eid = some md)) ∧
    (∀ eid, m.elicitations_map eid = none →
       (m.cleanup_old_elicitations now).elicitations_map eid = none) ∧
    (m.cleanup_old_elicitations now).session_service_auth =
      m.session_service_auth := by
  refine ⟨?_, ?_, rfl⟩
  · intro eid md h
    constructor <;> intro hage <;>
      simp [ElicitationManager.cleanup_old_elicitations, h, hage]
  · intro eid h
    simp [ElicitationManager.cleanup_old_elicitations, h]

/-- **C7, witness**: with the TTL of 3600 seconds, a sweep at time 4000
removes a record created at time 0 (age 4000) and keeps one created at time
1000 (age 3000) unchanged, whatever their statuses. -/
theorem C7_witness :
    ((runOps initialManager [ManagerOp.create "old" "s1" "In progress" 0,
        ManagerOp.create "new" "s1" "In progress" 1000]).cleanup_old_elicitations
          4000).elicitations_map "old" = none ∧
    ((runOps initialManager [ManagerOp.create "old" "s1" "In progress" 0,
        ManagerOp.create "new" "s1" "In progress" 1000]).cleanup_old_elicitations
          4000).elicitations_map "new" =
      some (initMetadata "s1" "In progress" 1000) :=
  ⟨((C7_ttl_sweep (runOps initialManager
      [ManagerOp.create "old" "s1" "In progress" 0,
       ManagerOp.create "new" "s1" "In progress" 1000]) 4000).1 "old"
      (initMetadata "s1" "In progress" 0) (by decide)).1 (by decide),
   ((C7_ttl_sweep (runOps initialManager
      [ManagerOp.create "old" "s1" "In progress" 0,
       ManagerOp.create "new" "s1" "In progress" 1000]) 4000).1 "new"
      (initMetadata "s1" "In progress" 1000) (by decide)).2 (by decide)⟩

/-! ## C8: progress monotonicity -/

/-- **C8.**  `progress` starts at 0 at creation; it never decreases under any
Manager call (for `create` the hypothesis excludes overwriting the same id —
the code relies on `uuid4` freshness for that); and it strictly increases by
exactly one on each accepted (guard-passing) `update_progress`, `complete`,
`accept`, `decline` or `cancel` call. -/
theorem C8_progress_monotonicity :
    (∀ sid msg now, (initMetadata sid msg now).progress = 0) ∧
    (∀ (m : ElicitationManager) (op : ManagerOp) (eid : String)
       (md md2 : ElicitationMetadata),
       (∀ sid msg now, ¬(op = ManagerOp.create eid sid msg now)) →
       m.elicitations_map eid = some md →
       (stepOp m op).elicitations_map eid = some md2 →
       md.progress ≤ md2.progress) ∧
    (∀ (m : ElicitationManager) (eid : String) (msg tok : Option String)
       (md : ElicitationMetadata), m.elicitations_map eid = some md →
       ¬(md.status = "complete") →
       ((m.update_elicitation_progress eid msg).elicitations_map eid).map
         ElicitationMetadata.progress = some (md.progress + 1) ∧
       ((m.complete_elicitation eid msg tok).elicitations_map eid).map
         ElicitationMetadata.progress = some (md.progress + 1)) ∧
    (∀ (m : ElicitationManager) (eid : String) (msg : Option String)
       (md : ElicitationMetadata), m.elicitations_map eid = some md →
       ¬ isTerminalStatus md.status →
       ((m.accept_elicitation eid msg).elicitations_map eid).map
         ElicitationMetadata.progress = some (md.progress + 1) ∧
       ((m.decline_elicitation eid msg).elicitations_map eid).map
         ElicitationMetadata.progress = some (md.progress + 1) ∧
       ((m.cancel_elicitation eid msg).elicitations_map eid).map
         ElicitationMetadata.progress = some (md.progress + 1)) := by
  refine ⟨fun sid msg now => rfl, ?_, ?_, ?_⟩
  · intro m op eid md md2 hne h h2
    rcases stepOp_lookup_cases m op eid md2 h2 with hold |
      ⟨sid, msg, now, hop, hmd⟩ | ⟨md3, msg, hm, hc, hop, hmd⟩ |
      ⟨md3, msg, tok, hm, hc, hop, hmd⟩ | ⟨md3, msg, s, hm, hterm, hs, hmd⟩
    · have he : md = md2 := by
        rw [h] at hold
        exact Option.some.inj hold
      rw [he]
    · exact absurd hop (hne sid msg now)
    · have he : md3 = md := by
        rw [h] at hm
        exact (Option.some.inj hm).symm
      have : md2.progress = md.progress + 1 := by
        rw [hmd]
        simp [he]
      rw [this]
      exact Nat.le_succ _
    · have he : md3 = md := by
        rw [h] at hm
        exact (Option.some.inj hm).symm
      have : md2.progress = md.progress + 1 := by
        rw [hmd]
        simp [he]
      rw [this]
      exact Nat.le_succ _
    · have he : md3 = md := by
        rw [h] at hm
        exact (Option.some.inj hm).symm
      have : md2.progress = md.progress + 1 := by
        rw [hmd]
        simp [he]
      rw [this]
      exact Nat.le_succ _
  · intro m eid msg tok md h hc
    constructor
    · simp [ElicitationManager.update_elicitation_progress, h, hc]
    · simp [ElicitationManager.complete_elicitation, h, hc]
  · intro m eid msg md h ht
    refine ⟨?_, ?_, ?_⟩
    · simp [ElicitationManager.accept_elicitation, h, ht]
    · simp [ElicitationManager.decline_elicitation, h, ht]
    · simp [ElicitationManager.cancel_elicitation, h, ht]

/-- **C8, witness**: on a fresh pending record (progress 0), `accept`
stores progress 1. -/
theorem C8_witness :
    (((runOps initialManager [ManagerOp.create "e1" "s1" "In progress" 0]
      ).accept_elicitation "e1" none).elicitations_map "e1").map
        ElicitationMetadata.progress = some 1 :=
  ((C8_progress_monotonicity.2.2.2
    (runOps initialManager [ManagerOp.create "e1" "s1" "In progress" 0])
    "e1" none (initMetadata "s1" "In progress" 0)
    (by decide) (by decide)).1)

/-! ## C9: session auth cache round-trip -/

lemma update_progress_auth (m : ElicitationManager) (eid : String)
    (msg : Option String) :
    (m.update_elicitation_progress eid msg).session_service_auth =
      m.session_service_auth := by
  simp only [ElicitationManager.update_elicitation_progress]
  split
  · rfl
  · split <;> rfl

lemma complete_auth (m : ElicitationManager) (eid : String)
    (msg tok : Option String) :
    (m.complete_elicitation eid msg tok).session_service_auth =
      m.session_service_auth := by
  simp only [ElicitationManager.complete_elicitation]
  split
  · rfl
  · split <;> rfl

lemma accept_auth (m : ElicitationManager) (eid : String) (msg : Option String) :
    (m.accept_elicitation eid msg).session_service_auth =
      m.session_service_auth := by
  simp only [ElicitationManager.accept_elicitation]
  split
  · rfl
  · split <;> rfl

lemma decline_auth (m : ElicitationManager) (eid : String) (msg : Option String) :
    (m.decline_elicitation eid msg).session_service_auth =
      m.session_service_auth := by
  simp only [ElicitationManager.decline_elicitation]
  split
  · rfl
  · split <;> rfl

lemma cancel_auth (m : ElicitationManager) (eid : String) (msg : Option String) :
    (m.cancel_elicitation eid msg).session_service_auth =
      m.session_service_auth := by
  simp only [ElicitationManager.cancel_elicitation]
  split
  · rfl
  · split <;> rfl

/-- A (session, service) auth entry that is absent stays absent under every
call that is not a `mark` of that very pair. -/
lemma authEntry_none_stepOp (m : ElicitationManager) (op : ManagerOp)
    (sid svc : String) (hop : ¬ marksPair op sid svc)
    (h : authEntry m sid svc = none) : authEntry (stepOp m op) sid svc = none := by
  cases op with
  | create eid sid2 msg now => exact h
  | updateProgress eid msg =>
    simpa only [authEntry, stepOp, update_progress_auth] using h
  | complete eid msg tok =>
    simpa only [authEntry, stepOp, complete_auth] using h
  | accept eid msg =>
    simpa only [authEntry, stepOp, accept_auth] using h
  | decline eid msg =>
    simpa only [authEntry, stepOp, decline_auth] using h
  | cancel eid msg =>
    simpa only [authEntry, stepOp, cancel_auth] using h
  | cleanup now => exact h
  | markAuth sid2 svc2 eid now =>
    simp only [marksPair, not_and_or] at hop
    simp only [authEntry, stepOp,
      ElicitationManager.mark_session_authenticated_for_service] at h ⊢
    by_cases hs : sid = sid2
    · subst hs
      have hsvc : ¬(svc = svc2) := by
        rcases hop with hop | hop
        · exact absurd rfl hop
        · exact fun hv => hop hv.symm
      cases hm : m.session_service_auth sid with
      | none => simp [hm, hsvc]
      | some f =>
        simp only [hm] at h
        simpa [hm, hsvc] using h
    · simpa [hs] using h
  | clearAuth sid2 svc2 =>
    simp only [authEntry] at h
    simp only [authEntry, stepOp,
      ElicitationManager.clear_session_auth_for_service]
    cases hm : m.session_service_auth sid2 with
    | none =>
      simp only [hm]
      exact h
    | some inner =>
      simp only [hm]
      cases hi : inner svc2 with
      | none => exact h
      | some a =>
        by_cases hs : sid = sid2
        · subst hs
          simp only [hm] at h
          by_cases hv : svc = svc2
          · simp [hv]
          · simpa [hv] using h
        · simpa [hs] using h

lemma authEntry_none_runOps (m : ElicitationManager) (ops : List ManagerOp)
    (sid svc : String) (hops : ∀ op ∈ ops, ¬ marksPair op sid svc)
    (h : authEntry m sid svc = none) :
    authEntry (runOps m ops) sid svc = none := by
  induction ops generalizing m with
  | nil => exact h
  | cons op rest ih =>
    exact ih (stepOp m op) (fun o ho => hops o (List.mem_cons_of_mem op ho))
      (authEntry_none_stepOp m op sid svc (hops op (List.mem_cons_self op rest)) h)

lemma is_auth_of_authEntry_none (m : ElicitationManager) (sid svc : String)
    (h : authEntry m sid svc = none) :
    m.is_session_authenticated_for_service sid svc = false := by
  simp only [authEntry] at h
  simp only [ElicitationManager.is_session_authenticated_for_service]
  cases hm : m.session_service_auth sid with
  | none => simp only [hm]
  | some inner =>
    simp only [hm] at h
    simp only [hm, h]

lemma clear_of_authEntry_none (m : ElicitationManager) (sid svc : String)
    (h : authEntry m sid svc = none) :
    m.clear_session_auth_for_service sid svc = m := by
  simp only [authEntry] at h
  simp only [ElicitationManager.clear_session_auth_for_service]
  cases hm : m.session_service_auth sid with
  | none => simp only [hm]
  | some inner =>
    simp only [hm] at h
    simp only [hm, h]

/-- **C9.**  Session auth cache round-trip: after `mark(s, v, id)`,
`is_authenticated(s, v)` is true; after a subsequent `clear(s, v)` it is
false again; and for a pair never marked along any call sequence from the
initial Manager, `is_authenticated` is false and `clear` is a no-op
returning the state unchanged (and, being a total function, raises
nothing). -/
theorem C9_session_auth_cache (m : ElicitationManager) (sid svc eid : String)
    (now : Nat) (ops : List ManagerOp)
    (hops : ∀ op ∈ ops, ¬ marksPair op sid svc) :
    (m.mark_session_authenticated_for_service sid svc eid now
      ).is_session_authenticated_for_service sid svc = true ∧
    ((m.mark_session_authenticated_for_service sid svc eid now
      ).clear_session_auth_for_service sid svc
      ).is_session_authenticated_for_service sid svc = false ∧
    (runOps initialManager ops).is_session_authenticated_for_service sid svc
      = false ∧
    (runOps initialManager ops).clear_session_auth_for_service sid svc
      = runOps initialManager ops := by
  have hnone : authEntry (runOps initialManager ops) sid svc = none :=
    authEntry_none_runOps initialManager ops sid svc hops rfl
  refine ⟨?_, ?_, is_auth_of_authEntry_none _ sid svc hnone,
    clear_of_authEntry_none _ sid svc hnone⟩
  · simp [ElicitationManager.is_session_authenticated_for_service,
      ElicitationManager.mark_session_authenticated_for_service]
  · simp [ElicitationManager.is_session_authenticated_for_service,
      ElicitationManager.clear_session_auth_for_service,
      ElicitationManager.mark_session_authenticated_for_service]

/-- **C9, witness**: Scenario C concretely — session `s1`, service
`"github"`: mark then check, clear then check; and the pair is unmarked
after a create/accept sequence. -/
theorem C9_witness :
    ((runOps initialManager [ManagerOp.create "e1" "s1" "In progress" 0,
        ManagerOp.accept "e1" none]).mark_session_authenticated_for_service
        "s1" "github" "e1" 5).is_session_authenticated_for_service "s1" "github"
      = true ∧
    (runOps initialManager [ManagerOp.create "e1" "s1" "In progress" 0,
        ManagerOp.accept "e1" none]).is_session_authenticated_for_service
        "s1" "github" = false := by
  have h := C9_session_auth_cache
    (runOps initialManager [ManagerOp.create "e1" "s1" "In progress" 0,
      ManagerOp.accept "e1" none]) "s1" "github" "e1" 5
    [ManagerOp.create "e1" "s1" "In progress" 0, ManagerOp.accept "e1" none]
    (by decide)
  exact ⟨h.1, h.2.2.1⟩

/-! ## C10: empty-string arguments are treated as absent -/

/-- **C10.**  Python truthiness makes an empty-string argument behave like an
absent one: on any record the call can act on, `update_progress` with message
`""` changes only `progress`; `complete` with message `""` and token `""`
changes only `status`, `progress` and the promise flag — in particular
`message`, `collected_token` and `token_validated` are left exactly as they
were (so a token-less record stays token-less); `accept`/`decline`/`cancel`
with message `""` change only `status`, `progress` and the promise flag. -/
theorem C10_empty_string_arguments (m : ElicitationManager) (eid : String)
    (md : ElicitationMetadata) (h : m.elicitations_map eid = some md) :
    (¬(md.status = "complete") →
      (m.update_elicitation_progress eid (some "")).elicitations_map eid =
        some { md with progress := md.progress + 1 } ∧
      (m.complete_elicitation eid (some "") (some "")).elicitations_map eid =
        some { md with
          status := "complete", progress := md.progress + 1,
          promiseDone := true }) ∧
    (¬ isTerminalStatus md.status →
      (m.accept_elicitation eid (some "")).elicitations_map eid =
        some { md with
          status := "accepted", progress := md.progress + 1,
          promiseDone := true } ∧
      (m.decline_elicitation eid (some "")).elicitations_map eid =
        some { md with
          status := "declined", progress := md.progress + 1,
          promiseDone := true } ∧
      (m.cancel_elicitation eid (some "")).elicitations_map eid =
        some { md with
          status := "cancelled", progress := md.progress + 1,
          promiseDone := true }) := by
  obtain ⟨st, pr, pd, ca, si, ms, ct, tv⟩ := md
  constructor
  · intro hc
    constructor
    · simp [ElicitationManager.update_elicitation_progress, h, hc, withMessage]
    · cases pd <;>
        simp [ElicitationManager.complete_elicitation, h, hc, withMessage,
          withToken, resolvePromise]
  · intro ht
    refine ⟨?_, ?_, ?_⟩ <;> cases pd <;>
      simp [ElicitationManager.accept_elicitation,
        ElicitationManager.decline_elicitation,
        ElicitationManager.cancel_elicitation, h, ht, withMessage, resolvePromise]

/-- **C10, witness**: on a pending record carrying message `"hello"`,
`complete` with empty-string message and token yields status `"complete"`,
progress 1, message still `"hello"`, no token, not validated. -/
theorem C10_witness :
    ((runOps initialManager [ManagerOp.create "e1" "s1" "hello" 7]
      ).complete_elicitation "e1" (some "") (some "")).elicitations_map "e1" =
      some { status := "complete", progress := 1, promiseDone := true,
             created_at := 7, session_id := "s1", message := "hello",
             collected_token := none, token_validated := false } :=
  ((C10_empty_string_arguments
    (runOps initialManager [ManagerOp.create "e1" "s1" "hello" 7]) "e1"
    (initMetadata "s1" "hello" 7) (by decide)).1 (by decide)).2
